import Mathlib

/-!
Shallow embedding of `src/dpi.cpp`, a DPI-detection probe runner.

The embedding covers the functions the specification's claims are about:
the bracket-balanced extractor `extractTestSuiteArray`, the tolerant
object parser `parseObject` (with its `getString` / `getInt` helpers and
the `std::stoi` behaviour they rely on), the top-level record scanner
`parseTestSuiteVector`, the loader `loadTestSuiteFromUrl`, the
threshold-abort progress callback `xferinfo_cb`, the outcome
classification switch of `worker`, and the per-repetition result-id
derivation of `worker` / `main`.

Modelling conventions:
* C++ `std::string` values are `List Char`; an `std::string::find`-style
  scan returns the suffix of the string starting at the found position
  (`none` models `npos`).
* Code that can throw (`std::stoi`) returns `Except ParseError`; an
  `Except.error` models a thrown C++ exception propagating to the caller
  (uncaught in this program).
* The network fetch (`fetchHtml`, an external libcurl collaborator) is
  modelled by its outcome: `Option (List Char)`, `none` for a failed
  fetch.
* `size_t` and `int` counters are `Nat` and `Int`.  The one place where
  unsigned wrap-around could matter (`size_t depth` in
  `extractTestSuiteArray`) is noted at its definition.
-/

namespace DpiCheck

/-- Characters of a Lean string literal, used to write down concrete C++
`std::string` contents. -/
def strL (s : String) : List Char := s.data

/-- Models `str.find(c, pos)` applied to the suffix of `str` starting at
`pos`: returns the suffix starting at the first occurrence of `c`, or
`none` for `npos`. -/
def dropToChar (c : Char) : List Char → Option (List Char)
  | [] => none
  | a :: rest => if a = c then some (a :: rest) else dropToChar c rest

/-- Models `str.find(pat, pos)` applied to the suffix of `str` starting at
`pos`: returns the suffix starting at the first occurrence of the
substring `pat`, or `none` for `npos`. -/
def dropToSub (pat : List Char) : List Char → Option (List Char)
  | [] => if pat.isPrefixOf [] then some [] else none
  | a :: rest =>
    if pat.isPrefixOf (a :: rest) then some (a :: rest) else dropToSub pat rest

/-- Content strictly before the first occurrence of `c`, or `none` when
`c` does not occur; used for the quoted-string field extraction in
`parseObject::getString` (`find('"', p+1)` followed by `substr`). -/
def takeToChar (c : Char) : List Char → Option (List Char)
  | [] => none
  | a :: rest =>
    if a = c then some [] else (takeToChar c rest).map (fun r => a :: r)

/-! ## Bracket-balanced extractor (`extractTestSuiteArray`, dpi.cpp:133-155) -/

/-- The marker literal hard-coded at dpi.cpp:134:
`const std::string marker = "const TEST_SUITE";`. -/
def markerL : List Char := strL "const TEST_SUITE"

/-- The depth-scanning loop of `extractTestSuiteArray` (dpi.cpp:145-153),
entered at the first `'['` found at or after the marker.  `depth` is the
C++ `size_t depth`; the source decrements and then compares with zero
(`depth--; if (depth == 0) return ...`), rendered here as
`if depth = 1 then return`, which is exact whenever `depth ≥ 1`.  A `']'`
at `depth = 0` never occurs on the actual entry path because the scan
always starts at an opening `'['` (in C++ it would wrap the unsigned
counter and the scan of any realistically-sized string would fail).
Returns the scanned substring through the bracket at which the depth
returns to zero, or `none` if the brackets never balance before the end
of the input. -/
def scanBrackets : List Char → Nat → Option (List Char)
  | [], _ => none
  | c :: rest, depth =>
    if c = '[' then (scanBrackets rest (depth + 1)).map (fun r => c :: r)
    else if c = ']' then
      if depth = 1 then some [c]
      else (scanBrackets rest (depth - 1)).map (fun r => c :: r)
    else (scanBrackets rest depth).map (fun r => c :: r)

/-- Embedding of `extractTestSuiteArray` (dpi.cpp:133-155): find the
marker `"const TEST_SUITE"`, find the first `'['` at or after it, then
scan with a depth counter and return the balanced-bracket substring;
every failure returns the empty string. -/
def extractTestSuiteArray (html : List Char) : List Char :=
  match dropToSub markerL html with
  | none => []
  | some s1 =>
    match dropToChar '[' s1 with
    | none => []
    | some s2 =>
      match scanBrackets s2 0 with
      | none => []
      | some r => r

/-! ## Tolerant object parser (`parseObject`, dpi.cpp:157-186) -/

/-- A parsed test-suite record (struct `Test`, dpi.cpp:19-24).  String
fields are kept as `List Char`; `times` is the C++ `int`. -/
structure Test where
  id : List Char
  provider : List Char
  url : List Char
  times : Int
deriving DecidableEq, Repr

/-- Exceptions thrown by `std::stoi` (dpi.cpp:177): `std::invalid_argument`
when no conversion can be performed, `std::out_of_range` when the value
does not fit in `int`. -/
inductive ParseError where
  | invalidArgument
  | outOfRange
deriving DecidableEq, Repr

/-- Behaviour of `std::stoi` on the argument actually passed at
dpi.cpp:177, which by construction is a (possibly empty) run of decimal
digits: an empty run throws `std::invalid_argument`; a value exceeding
`INT_MAX` throws `std::out_of_range`; otherwise the decimal value is
returned. -/
def stoiDigits (s : List Char) : Except ParseError Int :=
  if s = [] then .error .invalidArgument
  else
    let v : Nat := s.foldl (fun acc c => acc * 10 + (c.toNat - '0'.toNat)) 0
    if v > 2147483647 then .error .outOfRange else .ok (v : Int)

/-- C `isspace` on the ASCII characters this scanner can meet. -/
def isSpaceC (c : Char) : Bool :=
  c = ' ' || c = '\t' || c = '\n' || c = '\x0b' || c = '\x0c' || c = '\r'

/-- The `getString` lambda of `parseObject` (dpi.cpp:158-167): locate
`key ++ ":"`, then the next two `'"'` characters starting the search at
the key, and return the content between them; every failure returns the
empty string. -/
def getString (key : List Char) (objText : List Char) : List Char :=
  match dropToSub (key ++ [':']) objText with
  | none => []
  | some s1 =>
    match dropToChar '"' s1 with
    | none => []
    | some s2 =>
      match s2 with
      | [] => []
      | _ :: afterQuote =>
        match takeToChar '"' afterQuote with
        | none => []
        | some content => content

/-- The `getInt` lambda of `parseObject` (dpi.cpp:169-178): locate
`key ++ ":"` (absent means `0`), skip whitespace after it, take the run
of decimal digits and hand it to `std::stoi` — which throws when the run
is empty. -/
def getInt (key : List Char) (objText : List Char) : Except ParseError Int :=
  match dropToSub (key ++ [':']) objText with
  | none => .ok 0
  | some s1 =>
    let afterPat := s1.drop (key.length + 1)
    let afterWs := afterPat.dropWhile isSpaceC
    let digits := afterWs.takeWhile Char.isDigit
    stoiDigits digits

/-- Embedding of `parseObject` (dpi.cpp:157-186): extract the four known
fields and return `(!t.id.empty(), t)`; an `Except.error` models the
`std::stoi` exception escaping from `getInt`. -/
def parseObject (objText : List Char) : Except ParseError (Bool × Test) := do
  let id := getString (strL "id") objText
  let provider := getString (strL "provider") objText
  let url := getString (strL "url") objText
  let times ← getInt (strL "times") objText
  let t : Test := ⟨id, provider, url, times⟩
  return (!t.id.isEmpty, t)

/-! ## Top-level record scanner (`parseTestSuiteVector`, dpi.cpp:188-213) -/

/-- Index of the first occurrence of `c` in the list, offset by the
starting index `j`; helper for `findCharFrom`. -/
def findCharGo (c : Char) : List Char → Nat → Option Nat
  | [], _ => none
  | a :: rest, j => if a = c then some j else findCharGo c rest (j + 1)

/-- Models `arrayText.find(c, i)` returning an index: the first position
`≥ i` holding `c`, or `none` for `npos`. -/
def findCharFrom (s : List Char) (c : Char) (i : Nat) : Option Nat :=
  findCharGo c (s.drop i) i

/-- The inner brace-depth loop of `parseTestSuiteVector`
(dpi.cpp:194-210): starting from the character at index `j` with the
C++ `int depth`, return the index of the `'}'` at which the depth
returns to zero (`depth--; if (depth == 0)`), or `none` when the loop
runs off the end of the input without balancing. -/
def scanBraceEnd : List Char → Int → Nat → Option Nat
  | [], _, _ => none
  | c :: rest, depth, j =>
    if c = '{' then scanBraceEnd rest (depth + 1) (j + 1)
    else if c = '}' then
      if depth - 1 = 0 then some j else scanBraceEnd rest (depth - 1) (j + 1)
    else scanBraceEnd rest depth (j + 1)

/-- One fuelled rendering of the `while (i < arrayText.size())` loop of
`parseTestSuiteVector` (dpi.cpp:188-213) over the state `(i, out)`:
find the next `'{'` (none left ⇒ return the accumulated records); scan
for its balancing `'}'`; on balance parse the object, push it when
`parseObject` returned `true`, and continue at `j + 1 + 1` (the source
sets `i = j + 1` inside the inner loop and the trailing `i++` of the
outer loop adds one more); when the brace never balances the outer
loop just advances `i` by one and rescans.  `none` means the fuel ran
out; an `Except.error` models the `std::stoi` exception propagating out
of `parseObject`. -/
def parseLoop (s : List Char) : Nat → Nat → List Test → Option (Except ParseError (List Test))
  | 0, _, _ => none
  | fuel + 1, i, acc =>
    if i < s.length then
      match findCharFrom s '{' i with
      | none => some (.ok acc)
      | some p =>
        match scanBraceEnd (s.drop p) 0 p with
        | some j =>
          match parseObject ((s.drop p).take (j - p + 1)) with
          | .error e => some (.error e)
          | .ok (b, t) =>
            parseLoop s fuel (j + 1 + 1) (if b then acc ++ [t] else acc)
        | none => parseLoop s fuel (i + 1) acc
    else some (.ok acc)

/-- Embedding of `parseTestSuiteVector` (dpi.cpp:188-213).  The loop
index `i` strictly increases on every iteration, so `length + 1` units
of fuel always suffice (proved below); the `getD` default is therefore
never taken. -/
def parseTestSuiteVector (arrayText : List Char) : Except ParseError (List Test) :=
  (parseLoop arrayText (arrayText.length + 1) 0 []).getD (.ok [])

/-! ## Loader (`loadTestSuiteFromUrl`, dpi.cpp:215-224) -/

/-- Embedding of `loadTestSuiteFromUrl` (dpi.cpp:215-224).  The outcome
of the external `fetchHtml` call is passed in as `fetched` (`none` for
a failed fetch).  On a successful fetch the source extracts the array,
returns early when it is empty, and otherwise runs `tests.clear();`
followed by `parseTestSuiteVector(arr, tests)` — i.e. the caller's list
is discarded and replaced by whatever the scan (started from an empty
accumulator) produces, an `Except.error` again modelling a propagated
exception. -/
def loadTestSuiteFromUrl (tests : List Test) (fetched : Option (List Char)) :
    Except ParseError (List Test) :=
  match fetched with
  | none => .ok tests
  | some html =>
    let arr := extractTestSuiteArray html
    if arr.isEmpty then .ok tests
    else parseTestSuiteVector arr

/-! ## Threshold-abort callback and classifier (`xferinfo_cb`, `worker`) -/

/-- The fixed global threshold (dpi.cpp:16):
`static const size_t OK_THRESHOLD_BYTES = 64 * 1024;`. -/
def OK_THRESHOLD_BYTES : Nat := 64 * 1024

/-- Embedding of `xferinfo_cb` (dpi.cpp:234-241): given the current
`received` counter and the current `aborted_by_threshold` flag of the
`Result`, return the updated flag and the callback's `int` return value
(nonzero aborts the transfer).  Neither the `Test` record nor any
per-test datum is an input: the comparison is against the global
`OK_THRESHOLD_BYTES` only. -/
def xferinfo_cb (received : Nat) (aborted_by_threshold : Bool) : Bool × Int :=
  if received ≥ OK_THRESHOLD_BYTES then (true, 1) else (aborted_by_threshold, 0)

/-- Completion code of one transfer (`CURLcode rc` at dpi.cpp:278),
restricted to the constructors the `switch` at dpi.cpp:285 distinguishes;
`other` carries the numeric code and the `curl_easy_strerror` text. -/
inductive CurlCode where
  | ok
  | operationTimedOut
  | abortedByCallback
  | other (code : Nat) (strerror : List Char)
deriving DecidableEq, Repr

/-- The outcome-classification `switch` of `worker` (dpi.cpp:285-324) as
a pure function of the completion code, the final `received` counter and
the `aborted_by_threshold` flag, returning the `(status, detail)` pair
written into the `Result`. -/
def classify (rc : CurlCode) (received : Nat) (aborted_by_threshold : Bool) :
    List Char × List Char :=
  match rc with
  | .ok =>
    if received ≥ OK_THRESHOLD_BYTES then
      (strL "Not detected ✅", strL "Received >= threshold")
    else
      (strL "Possibly detected ⚠️", strL "Stream ended, data too small")
  | .operationTimedOut =>
    if received = 0 then
      (strL "Detected* ❗️", strL "Timeout with zero bytes (likely connection blocked)")
    else
      (strL "Detected ❗️", strL "Timeout after partial data (read blocked)")
  | .abortedByCallback =>
    if aborted_by_threshold then
      (strL "Not detected ✅", strL "Early abort: threshold reached")
    else
      (strL "Detected ❗️", strL "Unexpected abort before threshold")
  | .other code strerror =>
    (strL "Failed to complete detection ⚠️",
      strL "curl_error=" ++ strL (toString code) ++ strL " (" ++ strerror ++ strL ")")

/-! ## Result-id derivation (`worker` dpi.cpp:243-245, `main` dpi.cpp:352-357) -/

/-- The `Result.id` assignment of `worker` (dpi.cpp:245):
`res.id = (t.times > 1) ? (t.id + "@" + std::to_string(idx)) : t.id;`. -/
def resultId (t : Test) (idx : Int) : List Char :=
  if t.times > 1 then t.id ++ ('@' :: strL (toString idx)) else t.id

/-- The result ids produced for one `Test` by the dispatch loop of `main`
(dpi.cpp:353-357): one worker per repetition index `i` with
`0 ≤ i < t.times` (an `int` loop, so a non-positive `times` spawns
none). -/
def workerIds (t : Test) : List (List Char) :=
  (List.range t.times.toNat).map (fun i => resultId t (Int.ofNat i))

/-! ## Specification-side predicates (from the claims' wording) -/

/-- Balanced-bracket check used to state the extractor claims: running
`'['`/`']'` depth never goes negative and ends at zero. -/
def balCheck : List Char → Int → Bool
  | [], d => d == 0
  | c :: rest, d =>
    if c = '[' then balCheck rest (d + 1)
    else if c = ']' then decide (0 < d) && balCheck rest (d - 1)
    else balCheck rest d

/-- A string "has balanced brackets" in the sense of the specification's
extractor contract. -/
def balancedBrackets (s : List Char) : Bool := balCheck s 0

/-- Some nonempty prefix of `s` has balanced brackets: this is the
specification's "brackets balance before input end" condition for the
text starting at the opening bracket. -/
def hasBalancedPrefixB (s : List Char) : Bool :=
  s.inits.any (fun q => !q.isEmpty && balCheck q 0)

/-! ## Helper lemmas on the scanning primitives -/

/-- A substring search fails exactly when the pattern is not an infix of
the text. -/
theorem dropToSub_none_iff (pat s : List Char) :
    dropToSub pat s = none ↔ ¬ pat <:+: s := by
  induction s with
  | nil =>
    constructor
    · intro h hInf
      rw [List.infix_nil] at hInf
      subst hInf
      simp [dropToSub] at h
    · intro h
      simp only [dropToSub]
      rw [if_neg]
      intro hp
      exact h (List.IsPrefix.isInfix (List.isPrefixOf_iff_prefix.mp hp))
  | cons a rest ih =>
    constructor
    · intro h hInf
      rcases List.infix_cons_iff.mp hInf with hp | hi
      · simp only [dropToSub] at h
        rw [if_pos (List.isPrefixOf_iff_prefix.mpr hp)] at h
        exact Option.noConfusion h
      · simp only [dropToSub] at h
        by_cases hp : pat.isPrefixOf (a :: rest)
        · rw [if_pos hp] at h; exact Option.noConfusion h
        · rw [if_neg hp] at h; exact (ih.mp h) hi
    · intro h
      simp only [dropToSub]
      rw [if_neg]
      · exact ih.mpr (fun hi => h (List.infix_cons_iff.mpr (Or.inr hi)))
      · intro hp
        exact h (List.infix_cons_iff.mpr
          (Or.inl (List.isPrefixOf_iff_prefix.mp hp)))

/-- A successful character search returns a suffix starting with the
searched character. -/
theorem dropToChar_some_shape (c : Char) :
    ∀ s t : List Char, dropToChar c s = some t → ∃ rest, t = c :: rest := by
  intro s
  induction s with
  | nil => intro t h; exact Option.noConfusion h
  | cons a rest ih =>
    intro t h
    simp only [dropToChar] at h
    by_cases hc : a = c
    · rw [if_pos hc] at h
      exact ⟨rest, by cases h; rw [hc]⟩
    · rw [if_neg hc] at h
      exact ih t h

/-- A failed character search means the character does not occur. -/
theorem dropToChar_none_iff (c : Char) :
    ∀ s : List Char, dropToChar c s = none ↔ c ∉ s := by
  intro s
  induction s with
  | nil => simp [dropToChar]
  | cons a rest ih =>
    by_cases h : a = c
    · subst h
      simp [dropToChar]
    · simp [dropToChar, h, ih, List.mem_cons, Ne.symm h]

/-- A successful bracket scan ends at a closing bracket. -/
theorem scanBrackets_last :
    ∀ (s : List Char) (d : Nat) (r : List Char),
      scanBrackets s d = some r → r.getLast? = some ']' := by
  intro s
  induction s with
  | nil => intro d r h; exact Option.noConfusion h
  | cons c rest ih =>
    intro d r h
    simp only [scanBrackets] at h
    by_cases h1 : c = '['
    · rw [if_pos h1, Option.map_eq_some'] at h
      rcases h with ⟨r0, hr0, hco⟩
      subst hco
      have hlast := ih (d + 1) r0 hr0
      cases r0 with
      | nil => simp at hlast
      | cons x xs => rw [List.getLast?_cons_cons]; exact hlast
    · rw [if_neg h1] at h
      by_cases h2 : c = ']'
      · rw [if_pos h2] at h
        by_cases h3 : d = 1
        · rw [if_pos h3] at h
          cases h
          simp [h2]
        · rw [if_neg h3, Option.map_eq_some'] at h
          rcases h with ⟨r0, hr0, hco⟩
          subst hco
          have hlast := ih (d - 1) r0 hr0
          cases r0 with
          | nil => simp at hlast
          | cons x xs => rw [List.getLast?_cons_cons]; exact hlast
      · rw [if_neg h2, Option.map_eq_some'] at h
        rcases h with ⟨r0, hr0, hco⟩
        subst hco
        have hlast := ih d r0 hr0
        cases r0 with
        | nil => simp at hlast
        | cons x xs => rw [List.getLast?_cons_cons]; exact hlast

/-- A successful bracket scan returns a prefix of the scanned text. -/
theorem scanBrackets_prefix :
    ∀ (s : List Char) (d : Nat) (r : List Char),
      scanBrackets s d = some r → r <+: s := by
  intro s
  induction s with
  | nil => intro d r h; exact Option.noConfusion h
  | cons c rest ih =>
    intro d r h
    simp only [scanBrackets] at h
    by_cases h1 : c = '['
    · rw [if_pos h1, Option.map_eq_some'] at h
      rcases h with ⟨r0, hr0, hco⟩
      subst hco
      exact List.cons_prefix_cons.mpr ⟨rfl, ih (d + 1) r0 hr0⟩
    · rw [if_neg h1] at h
      by_cases h2 : c = ']'
      · rw [if_pos h2] at h
        by_cases h3 : d = 1
        · rw [if_pos h3] at h
          cases h
          exact List.cons_prefix_cons.mpr ⟨rfl, List.nil_prefix⟩
        · rw [if_neg h3, Option.map_eq_some'] at h
          rcases h with ⟨r0, hr0, hco⟩
          subst hco
          exact List.cons_prefix_cons.mpr ⟨rfl, ih (d - 1) r0 hr0⟩
      · rw [if_neg h2, Option.map_eq_some'] at h
        rcases h with ⟨r0, hr0, hco⟩
        subst hco
        exact List.cons_prefix_cons.mpr ⟨rfl, ih d r0 hr0⟩

/-- A successful bracket scan started at depth `d ≥ 1` returns a string
accepted by the balance checker started at the same depth. -/
theorem scanBrackets_balCheck :
    ∀ (s : List Char) (d : Nat) (r : List Char), 1 ≤ d →
      scanBrackets s d = some r → balCheck r (d : Int) = true := by
  intro s
  induction s with
  | nil => intro d r _ h; exact Option.noConfusion h
  | cons c rest ih =>
    intro d r hd h
    simp only [scanBrackets] at h
    by_cases h1 : c = '['
    · rw [if_pos h1, Option.map_eq_some'] at h
      rcases h with ⟨r0, hr0, hco⟩
      subst hco
      have hb := ih (d + 1) r0 (by omega) hr0
      have hcast : ((d + 1 : Nat) : Int) = (d : Int) + 1 := by omega
      rw [hcast] at hb
      simp only [balCheck, h1, if_pos]
      exact hb
    · rw [if_neg h1] at h
      by_cases h2 : c = ']'
      · rw [if_pos h2] at h
        by_cases h3 : d = 1
        · rw [if_pos h3] at h
          cases h
          subst h2
          subst h3
          decide
        · rw [if_neg h3, Option.map_eq_some'] at h
          rcases h with ⟨r0, hr0, hco⟩
          subst hco
          have hb := ih (d - 1) r0 (by omega) hr0
          have hcast : ((d - 1 : Nat) : Int) = (d : Int) - 1 := by omega
          rw [hcast] at hb
          simp only [balCheck]
          rw [if_neg h1, if_pos h2, Bool.and_eq_true]
          refine ⟨by simp only [decide_eq_true_eq]; omega, hb⟩
      · rw [if_neg h2, Option.map_eq_some'] at h
        rcases h with ⟨r0, hr0, hco⟩
        subst hco
        have hb := ih d r0 hd hr0
        simp only [balCheck]
        rw [if_neg h1, if_neg h2]
        exact hb

/-- Conversely, when some balanced chunk lies at the front of the text,
the bracket scan (started at the same depth `d ≥ 1`) succeeds. -/
theorem balCheck_scanBrackets_isSome :
    ∀ (q t : List Char) (d : Nat), 1 ≤ d → balCheck q (d : Int) = true →
      (scanBrackets (q ++ t) d).isSome = true := by
  intro q
  induction q with
  | nil =>
    intro t d hd hb
    simp only [balCheck, beq_iff_eq] at hb
    omega
  | cons c q0 ih =>
    intro t d hd hb
    simp only [balCheck] at hb
    simp only [List.cons_append, scanBrackets]
    by_cases h1 : c = '['
    · rw [if_pos h1] at hb ⊢
      have hcast : (d : Int) + 1 = ((d + 1 : Nat) : Int) := by omega
      rw [hcast] at hb
      rw [Option.isSome_map']
      exact ih t (d + 1) (by omega) hb
    · rw [if_neg h1] at hb ⊢
      by_cases h2 : c = ']'
      · rw [if_pos h2] at hb ⊢
        rw [Bool.and_eq_true] at hb
        by_cases h3 : d = 1
        · rw [if_pos h3]; rfl
        · rw [if_neg h3, Option.isSome_map']
          have hcast : (d : Int) - 1 = ((d - 1 : Nat) : Int) := by omega
          rw [hcast] at hb
          exact ih t (d - 1) (by omega) hb.2
      · rw [if_neg h2] at hb ⊢
        rw [Option.isSome_map']
        exact ih t d hd hb

/-! ## C5 : extractor contract -/

/-- C5: the bracket-balanced extractor's contract.  A nonempty result
starts with `'['`, ends with `']'` and has balanced brackets; the search
for the marker fails exactly when the marker is not a substring, the
bracket search fails exactly when no `'['` occurs at or after the
marker, and — given the marker and an opening bracket were found — the
result is nonempty exactly when some nonempty prefix of the text
starting at that bracket has balanced brackets (i.e. the brackets
balance before input end). -/
theorem extract_balanced_spec (html : List Char) :
    (extractTestSuiteArray html ≠ [] →
        (∃ r0, extractTestSuiteArray html = '[' :: r0)
      ∧ (extractTestSuiteArray html).getLast? = some ']'
      ∧ balancedBrackets (extractTestSuiteArray html) = true)
  ∧ (dropToSub markerL html = none ↔ ¬ markerL <:+: html)
  ∧ (dropToSub markerL html = none → extractTestSuiteArray html = [])
  ∧ (∀ s1 : List Char, dropToSub markerL html = some s1 → '[' ∉ s1 →
        extractTestSuiteArray html = [])
  ∧ (∀ s1 s2 : List Char,
        dropToSub markerL html = some s1 → dropToChar '[' s1 = some s2 →
        (hasBalancedPrefixB s2 = true ↔ extractTestSuiteArray html ≠ [])) := by
  refine ⟨?_, dropToSub_none_iff markerL html, ?_, ?_, ?_⟩
  · intro hne
    rcases hds : dropToSub markerL html with _ | s1
    · simp [extractTestSuiteArray, hds] at hne
    · rcases hdc : dropToChar '[' s1 with _ | s2
      · simp [extractTestSuiteArray, hds, hdc] at hne
      · rcases dropToChar_some_shape '[' s1 s2 hdc with ⟨rest, hrest⟩
        subst hrest
        rcases hsc : scanBrackets ('[' :: rest) 0 with _ | r
        · simp [extractTestSuiteArray, hds, hdc, hsc] at hne
        · have hex : extractTestSuiteArray html = r := by
            simp [extractTestSuiteArray, hds, hdc, hsc]
          have hsc' := hsc
          simp only [scanBrackets, if_pos, Option.map_eq_some'] at hsc'
          rcases hsc' with ⟨r0, hr0, hco⟩
          subst hco
          have hbal : balCheck r0 ((1 : Nat) : Int) = true :=
            scanBrackets_balCheck rest 1 r0 (by omega) hr0
          refine ⟨⟨r0, by rw [hex]⟩, ?_, ?_⟩
          · rw [hex]
            exact scanBrackets_last ('[' :: rest) 0 ('[' :: r0) hsc
          · rw [hex]
            simp only [balancedBrackets, balCheck, if_pos]
            have h01 : (0 : Int) + 1 = ((1 : Nat) : Int) := by norm_num
            rw [h01]
            exact hbal
  · intro hds
    simp [extractTestSuiteArray, hds]
  · intro s1 hds hnotin
    have hdc : dropToChar '[' s1 = none := (dropToChar_none_iff '[' s1).mpr hnotin
    simp [extractTestSuiteArray, hds, hdc]
  · intro s1 s2 hds hdc
    rcases dropToChar_some_shape '[' s1 s2 hdc with ⟨rest, hrest⟩
    subst hrest
    constructor
    · intro hbp
      simp only [hasBalancedPrefixB, List.any_eq_true] at hbp
      rcases hbp with ⟨q, hqmem, hq⟩
      rw [Bool.and_eq_true, Bool.not_eq_true'] at hq
      rcases hq with ⟨hqne, hqbal⟩
      have hqpre : q <+: '[' :: rest := (List.mem_inits q _).mp hqmem
      cases q with
      | nil => simp at hqne
      | cons x q0 =>
        rcases List.cons_prefix_cons.mp hqpre with ⟨hx, hq0pre⟩
        subst hx
        rcases hq0pre with ⟨t, ht⟩
        have hqbal' : balCheck q0 ((1 : Nat) : Int) = true := by
          simp [balCheck] at hqbal
          exact_mod_cast hqbal
        have hscan : (scanBrackets (q0 ++ t) 1).isSome = true :=
          balCheck_scanBrackets_isSome q0 t 1 (by omega) hqbal'
        rw [ht] at hscan
        rcases hsc : scanBrackets rest 1 with _ | r
        · rw [hsc] at hscan; simp at hscan
        · have : scanBrackets ('[' :: rest) 0 = some ('[' :: r) := by
            simp [scanBrackets, hsc]
          simp [extractTestSuiteArray, hds, hdc, this]
    · intro hne
      rcases hsc : scanBrackets ('[' :: rest) 0 with _ | r
      · simp [extractTestSuiteArray, hds, hdc, hsc] at hne
      · have hpre : r <+: '[' :: rest := scanBrackets_prefix ('[' :: rest) 0 r hsc
        have hsc' := hsc
        simp [scanBrackets] at hsc'
        rcases hsc' with ⟨r0, hr0, hco⟩
        subst hco
        have hbal : balCheck r0 ((1 : Nat) : Int) = true :=
          scanBrackets_balCheck rest 1 r0 (by omega) hr0
        simp only [hasBalancedPrefixB, List.any_eq_true]
        refine ⟨'[' :: r0, (List.mem_inits _ _).mpr hpre, ?_⟩
        rw [Bool.and_eq_true, Bool.not_eq_true']
        refine ⟨rfl, ?_⟩
        simp only [balCheck, if_pos]
        have h01 : (0 : Int) + 1 = ((1 : Nat) : Int) := by norm_num
        rw [h01]
        exact hbal

/-- Witness for C5: a document with marker, nested balanced array (the
result is checked balanced), a marker-free document, a bracket-free
document, and the balanced-prefix iff at the first one. -/
theorem extract_balanced_spec_witness :
    balancedBrackets (extractTestSuiteArray (strL "const TEST_SUITE = [[1],2];")) = true
  ∧ extractTestSuiteArray (strL "plain text") = []
  ∧ extractTestSuiteArray (strL "const TEST_SUITE and no bracket") = []
  ∧ extractTestSuiteArray (strL "const TEST_SUITE [[1") = [] := by
  refine ⟨((extract_balanced_spec (strL "const TEST_SUITE = [[1],2];")).1
      (by decide)).2.2, ?_, ?_, ?_⟩
  · exact (extract_balanced_spec (strL "plain text")).2.2.1 rfl
  · exact (extract_balanced_spec (strL "const TEST_SUITE and no bracket")).2.2.2.1
      (strL "const TEST_SUITE and no bracket") rfl (by decide)
  · by_contra hne
    have := ((extract_balanced_spec (strL "const TEST_SUITE [[1")).2.2.2.2
        (strL "const TEST_SUITE [[1") (strL "[[1") rfl rfl).mpr hne
    simp only at this
    exact absurd this (by decide)

/-! ## C8 : threshold-abort callback -/

/-- C8: on every progress tick `xferinfo_cb` sets `aborted_by_threshold`
and signals termination (nonzero return) exactly when the `received`
counter is at least the fixed global `OK_THRESHOLD_BYTES`, which equals
65536; the callback reads only the global constant — it receives no
`Test` and no per-test threshold exists. -/
theorem xferinfo_threshold_spec :
    OK_THRESHOLD_BYTES = 65536
  ∧ (∀ (received : Nat) (ab : Bool),
      ((xferinfo_cb received ab).2 ≠ 0 ↔ 65536 ≤ received))
  ∧ (∀ received : Nat,
      ((xferinfo_cb received false).1 = true ↔ 65536 ≤ received)) := by
  refine ⟨rfl, ?_, ?_⟩
  · intro r ab
    unfold xferinfo_cb OK_THRESHOLD_BYTES
    split
    · simp only [ne_eq]
      norm_num
      omega
    · simp only [ne_eq, not_true_eq_false]
      norm_num
      omega
  · intro r
    unfold xferinfo_cb OK_THRESHOLD_BYTES
    split
    · simp only [true_iff]
      omega
    · simp only [Bool.false_eq_true, false_iff]
      omega

/-! ## C9 : per-repetition result ids -/

/-- C9: `worker` derives the `Result` id from the `Test` id — suffixed
with `"@"` and the repetition index exactly when `times > 1`, unsuffixed
when `times ≤ 1` — and the dispatch loop of `main` runs indices
`0 ≤ i < times`, so `{id:"A", times:3}` yields exactly the ids
`A@0, A@1, A@2`. -/
theorem resultId_spec :
    (∀ (t : Test) (idx : Int), 1 < t.times →
        resultId t idx = t.id ++ ('@' :: strL (toString idx)))
  ∧ (∀ (t : Test) (idx : Int), t.times ≤ 1 → resultId t idx = t.id)
  ∧ workerIds ⟨strL "A", [], [], 3⟩ = [strL "A@0", strL "A@1", strL "A@2"] := by
  refine ⟨?_, ?_, by decide⟩
  · intro t idx h
    simp only [resultId]
    rw [if_pos h]
  · intro t idx h
    simp only [resultId]
    rw [if_neg (by omega)]

/-- Witness for C9 at concrete inputs. -/
theorem resultId_spec_witness :
    resultId ⟨strL "A", [], [], 3⟩ 1 = strL "A" ++ ('@' :: strL (toString (1 : Int)))
  ∧ resultId ⟨strL "B", [], [], 1⟩ 0 = strL "B" :=
  ⟨resultId_spec.1 ⟨strL "A", [], [], 3⟩ 1 (by decide),
   resultId_spec.2.1 ⟨strL "B", [], [], 1⟩ 0 (by decide)⟩

/-! ## C4 : outcome-classifier decision table -/

/-- C4: the classification `switch` of `worker` is a pure function of
`(outcome, received, aborted_by_threshold)` and realises every row of
the specification's decision table.  The code decorates the table's
diagnosis labels: "Not detected" is the status `"Not detected ✅"`,
"Possibly detected" is `"Possibly detected ⚠️"`, "Detected (probable)"
is the starred status `"Detected* ❗️"` (detail "Timeout with zero bytes
(likely connection blocked)"), "Detected" is `"Detected ❗️"`, and
"Failed to complete" is `"Failed to complete detection ⚠️"`. -/
theorem classify_decision_table :
    (∀ (received : Nat) (ab : Bool), 65536 ≤ received →
        classify .ok received ab
          = (strL "Not detected ✅", strL "Received >= threshold"))
  ∧ (∀ (received : Nat) (ab : Bool), received < 65536 →
        classify .ok received ab
          = (strL "Possibly detected ⚠️", strL "Stream ended, data too small"))
  ∧ (∀ ab : Bool, classify .operationTimedOut 0 ab
        = (strL "Detected* ❗️",
           strL "Timeout with zero bytes (likely connection blocked)"))
  ∧ (∀ (received : Nat) (ab : Bool), 0 < received →
        classify .operationTimedOut received ab
          = (strL "Detected ❗️", strL "Timeout after partial data (read blocked)"))
  ∧ (∀ received : Nat, classify .abortedByCallback received true
        = (strL "Not detected ✅", strL "Early abort: threshold reached"))
  ∧ (∀ received : Nat, classify .abortedByCallback received false
        = (strL "Detected ❗️", strL "Unexpected abort before threshold"))
  ∧ (∀ (received : Nat) (ab : Bool) (code : Nat) (strerror : List Char),
        (classify (.other code strerror) received ab).1
          = strL "Failed to complete detection ⚠️") := by
  refine ⟨?_, ?_, ?_, ?_, ?_, ?_, ?_⟩
  · intro r ab h
    simp only [classify]
    rw [if_pos (by unfold OK_THRESHOLD_BYTES; omega)]
  · intro r ab h
    simp only [classify]
    rw [if_neg (by unfold OK_THRESHOLD_BYTES; omega)]
  · intro ab
    simp [classify]
  · intro r ab h
    simp only [classify]
    rw [if_neg (by omega)]
  · intro r
    simp [classify]
  · intro r
    simp [classify]
  · intro r ab code strerror
    simp [classify]

/-- Witness for C4: one concrete instance per decision-table row. -/
theorem classify_decision_table_witness :
    classify .ok 70000 false
      = (strL "Not detected ✅", strL "Received >= threshold")
  ∧ classify .ok 100 false
      = (strL "Possibly detected ⚠️", strL "Stream ended, data too small")
  ∧ classify .operationTimedOut 0 false
      = (strL "Detected* ❗️",
         strL "Timeout with zero bytes (likely connection blocked)")
  ∧ classify .operationTimedOut 5 false
      = (strL "Detected ❗️", strL "Timeout after partial data (read blocked)")
  ∧ classify .abortedByCallback 70000 true
      = (strL "Not detected ✅", strL "Early abort: threshold reached")
  ∧ classify .abortedByCallback 5 false
      = (strL "Detected ❗️", strL "Unexpected abort before threshold")
  ∧ (classify (.other 6 (strL "Could not resolve hostname")) 0 false).1
      = strL "Failed to complete detection ⚠️" :=
  ⟨classify_decision_table.1 70000 false (by norm_num),
   classify_decision_table.2.1 100 false (by norm_num),
   classify_decision_table.2.2.1 false,
   classify_decision_table.2.2.2.1 5 false (by norm_num),
   classify_decision_table.2.2.2.2.1 70000,
   classify_decision_table.2.2.2.2.2.1 5,
   classify_decision_table.2.2.2.2.2.2 0 false 6 (strL "Could not resolve hostname")⟩

/-! ## C2 : the tolerant integer field is not tolerant -/

/-- C2 (code-bug evidence): on the record text `{id:"x",times:abc}` the
content after `times:` is not a run of decimal digits, so `getInt` hands
the empty substring to `std::stoi`, which throws `std::invalid_argument`
instead of degrading `times` to 0; the exception escapes `parseObject`
(modelled as `Except.error`) and, being uncaught in the program, aborts
it. -/
theorem parseObject_times_nonDigits_throws :
    parseObject (strL "\x7bid:\x22x\x22,times:abc\x7d") = .error .invalidArgument
  ∧ getInt (strL "times") (strL "\x7bid:\x22x\x22,times:abc\x7d")
      = .error .invalidArgument := ⟨rfl, rfl⟩

/-! ## C1 : the loader clears the caller's list before parsing -/

/-- C1 (code-bug evidence): with a pre-existing one-element test list and
a fetched document whose `const TEST_SUITE [...]` array extracts
successfully but whose only record fails to parse (it has no `id`), the
loader returns the empty list: `tests.clear()` runs before
`parseTestSuiteVector`, so the previously loaded list is destroyed even
though no record parsed — contradicting the claimed
replace-only-after-full-parse behaviour. -/
theorem loadTestSuite_destroys_previous_list :
    loadTestSuiteFromUrl [⟨strL "OLD", strL "P", strL "U", 1⟩]
        (some (strL "const TEST_SUITE [\x7bprovider:\x22p\x22\x7d]"))
      = .ok []
  ∧ extractTestSuiteArray (strL "const TEST_SUITE [\x7bprovider:\x22p\x22\x7d]") ≠ []
  ∧ ([⟨strL "OLD", strL "P", strL "U", 1⟩] : List Test) ≠ [] :=
  ⟨rfl, by decide, by decide⟩

/-! ## C6 : failed fetch / empty extraction leaves the list unchanged -/

/-- C6: when the document fetch fails, or the marker/bracket extraction
yields the empty string, `loadTestSuiteFromUrl` returns with the caller's
existing test list unchanged and signals no error. -/
theorem loadTestSuite_frame :
    (∀ tests : List Test, loadTestSuiteFromUrl tests none = .ok tests)
  ∧ (∀ (tests : List Test) (html : List Char), extractTestSuiteArray html = [] →
        loadTestSuiteFromUrl tests (some html) = .ok tests) := by
  constructor
  · intro tests; rfl
  · intro tests html h
    simp [loadTestSuiteFromUrl, h]

/-- Witness for C6 at a concrete list and a concrete marker-free
document. -/
theorem loadTestSuite_frame_witness :
    loadTestSuiteFromUrl [⟨strL "A", strL "P", strL "U", 2⟩] none
      = .ok [⟨strL "A", strL "P", strL "U", 2⟩]
  ∧ loadTestSuiteFromUrl [⟨strL "A", strL "P", strL "U", 2⟩]
        (some (strL "no suite here"))
      = .ok [⟨strL "A", strL "P", strL "U", 2⟩] :=
  ⟨loadTestSuite_frame.1 [⟨strL "A", strL "P", strL "U", 2⟩],
   loadTestSuite_frame.2 [⟨strL "A", strL "P", strL "U", 2⟩]
     (strL "no suite here") rfl⟩

/-! ## C3 : the extractor marker -/

/-- C3 counterexample: the document `"TEST_SUITE [1]"` contains the
literal substring `"TEST_SUITE"` followed by a balanced bracketed array,
yet extraction returns the empty string — so the extractor is not run
with the marker token `"TEST_SUITE"`. -/
theorem extract_bare_marker_fails_cex :
    extractTestSuiteArray (strL "TEST_SUITE [1]") = []
  ∧ strL "TEST_SUITE" <:+: strL "TEST_SUITE [1]"
  ∧ balancedBrackets (strL "[1]") = true :=
  ⟨rfl, ⟨[], strL " [1]", rfl⟩, rfl⟩

/-- C3 amended: the loader's extractor hard-codes the longer marker
literal `"const TEST_SUITE"`; any document in which that literal does not
occur (even one containing bare `"TEST_SUITE"` with a balanced array)
extracts nothing, while `"const TEST_SUITE"` followed by a balanced
array extracts it. -/
theorem extract_requires_const_marker :
    markerL = strL "const TEST_SUITE"
  ∧ (∀ html : List Char, ¬ markerL <:+: html → extractTestSuiteArray html = [])
  ∧ extractTestSuiteArray (strL "const TEST_SUITE [1]") = strL "[1]" := by
  refine ⟨rfl, ?_, rfl⟩
  intro html h
  have hnone : dropToSub markerL html = none := (dropToSub_none_iff markerL html).mpr h
  simp [extractTestSuiteArray, hnone]

/-- Witness for C3's amended statement: the counterexample document from
the unamended claim indeed extracts nothing. -/
theorem extract_requires_const_marker_witness :
    extractTestSuiteArray (strL "TEST_SUITE [1]") = [] :=
  extract_requires_const_marker.2.1 (strL "TEST_SUITE [1]") (by decide)

/-! ## C10 : termination of the record scanner -/

/-- A successful character search never reports a position before the
starting index. -/
theorem findCharGo_ge (c : Char) :
    ∀ (l : List Char) (j p : Nat), findCharGo c l j = some p → j ≤ p := by
  intro l
  induction l with
  | nil => intro j p h; exact Option.noConfusion h
  | cons a rest ih =>
    intro j p h
    simp only [findCharGo] at h
    by_cases ha : a = c
    · rw [if_pos ha] at h
      cases h
      omega
    · rw [if_neg ha] at h
      have := ih (j + 1) p h
      omega

/-- Index form of the previous lemma for `findCharFrom`. -/
theorem findCharFrom_ge (s : List Char) (c : Char) (i p : Nat)
    (h : findCharFrom s c i = some p) : i ≤ p :=
  findCharGo_ge c (s.drop i) i p h

/-- The inner brace scan never reports a position before its starting
index. -/
theorem scanBraceEnd_ge :
    ∀ (l : List Char) (d : Int) (j0 j : Nat), scanBraceEnd l d j0 = some j → j0 ≤ j := by
  intro l
  induction l with
  | nil => intro d j0 j h; exact Option.noConfusion h
  | cons c rest ih =>
    intro d j0 j h
    simp only [scanBraceEnd] at h
    by_cases h1 : c = '{'
    · rw [if_pos h1] at h
      have := ih (d + 1) (j0 + 1) j h
      omega
    · rw [if_neg h1] at h
      by_cases h2 : c = '}'
      · rw [if_pos h2] at h
        by_cases h3 : d - 1 = 0
        · rw [if_pos h3] at h
          cases h
          omega
        · rw [if_neg h3] at h
          have := ih (d - 1) (j0 + 1) j h
          omega
      · rw [if_neg h2] at h
        have := ih d (j0 + 1) j h
        omega

/-- The loop index of `parseTestSuiteVector` strictly increases on every
iteration, so any fuel exceeding `length - i` completes the loop. -/
theorem parseLoop_isSome :
    ∀ (fuel : Nat) (s : List Char) (i : Nat) (acc : List Test),
      s.length - i < fuel → (parseLoop s fuel i acc).isSome = true := by
  intro fuel
  induction fuel with
  | zero => intro s i acc h; omega
  | succ f ih =>
    intro s i acc h
    simp only [parseLoop]
    by_cases hi : i < s.length
    · rw [if_pos hi]
      split
      · rfl
      · rename_i p hf
        have hip : i ≤ p := findCharFrom_ge s '{' i p hf
        split
        · rename_i j hb
          have hpj : p ≤ j := scanBraceEnd_ge (s.drop p) 0 p j hb
          split
          · rfl
          · exact ih s (j + 1 + 1) _ (by omega)
        · exact ih s (i + 1) acc (by omega)
    · rw [if_neg hi]
      rfl

/-- C10: the record-scanning loop of `parseTestSuiteVector` reaches an
outcome on every finite input — including inputs whose `{` is never
balanced, where each outer iteration merely advances the index by one —
within `length + 1` iterations.  The outcome is either the normal return
of the accumulated records or, when `parseObject` throws on a record, the
exception propagating; the loop itself never runs forever. -/
theorem parseTestSuiteVector_terminates :
    ∀ arrayText : List Char, ∃ r : Except ParseError (List Test),
      parseLoop arrayText (arrayText.length + 1) 0 [] = some r
      ∧ parseTestSuiteVector arrayText = r := by
  intro s
  have h := parseLoop_isSome (s.length + 1) s 0 [] (by omega)
  rcases hr : parseLoop s (s.length + 1) 0 [] with _ | r
  · rw [hr] at h
    simp at h
  · exact ⟨r, rfl, by simp [parseTestSuiteVector, hr]⟩

/-! ## C7 : records with empty id never survive -/

/-- When `parseObject` accepts a record (returns `true`), the record's
`id` is nonempty: the source returns `!t.id.empty()`. -/
theorem parseObject_true_id_ne_nil :
    ∀ (o : List Char) (t : Test), parseObject o = .ok (true, t) → t.id ≠ [] := by
  intro o t h
  simp only [parseObject, bind, Except.bind, pure, Except.pure] at h
  rcases hg : getInt (strL "times") o with e | v
  · rw [hg] at h
    exact Except.noConfusion h
  · rw [hg] at h
    rw [Except.ok.injEq, Prod.mk.injEq] at h
    obtain ⟨hb, ht⟩ := h
    have hid : t.id = getString (strL "id") o := by rw [← ht]
    rw [Bool.not_eq_true'] at hb
    intro hn
    rw [hid] at hn
    rw [hn] at hb
    simp at hb

/-- The scanner's accumulator invariant: starting from an accumulator of
nonempty-id records, a normal completion of the loop yields only
nonempty-id records, because a record is pushed only when `parseObject`
accepted it. -/
theorem parseLoop_id_ne_nil :
    ∀ (fuel : Nat) (s : List Char) (i : Nat) (acc out : List Test),
      (∀ t ∈ acc, t.id ≠ []) →
      parseLoop s fuel i acc = some (.ok out) →
      ∀ t ∈ out, t.id ≠ [] := by
  intro fuel
  induction fuel with
  | zero => intro s i acc out hacc h; exact Option.noConfusion h
  | succ f ih =>
    intro s i acc out hacc h
    simp only [parseLoop] at h
    by_cases hi : i < s.length
    · rw [if_pos hi] at h
      split at h
      · injection h with h'
        injection h' with h''
        subst h''
        exact hacc
      · rename_i p hf
        split at h
        · rename_i j hb
          split at h
          · injection h with h'
            exact Except.noConfusion h'
          · rename_i b t hp
            refine ih s (j + 1 + 1) _ out ?_ h
            intro t' ht'
            by_cases hbb : b = true
            · subst hbb
              rw [if_pos rfl] at ht'
              rcases List.mem_append.mp ht' with hmem | hmem
              · exact hacc t' hmem
              · rw [List.mem_singleton] at hmem
                subst hmem
                exact parseObject_true_id_ne_nil _ t' hp
            · rw [if_neg hbb] at ht'
              exact hacc t' ht'
        · exact ih s (i + 1) acc out hacc h
    · rw [if_neg hi] at h
      injection h with h'
      injection h' with h''
      subst h''
      exact hacc

/-- C7: any test sequence that `parseTestSuiteVector` successfully
produces contains no record with empty `id`: `parseObject` accepts a
record only if its `id` field resolved to a nonempty string, and the
scanner pushes a record only when accepted — so no Test with empty `id`
ever reaches the dispatch loop of `main`. -/
theorem parse_drops_empty_id :
    ∀ (arrayText : List Char) (out : List Test),
      parseTestSuiteVector arrayText = .ok out → ∀ t ∈ out, t.id ≠ [] := by
  intro s out h
  unfold parseTestSuiteVector at h
  rcases hr : parseLoop s (s.length + 1) 0 [] with _ | r
  · rw [hr] at h
    simp only [Option.getD_none, Except.ok.injEq] at h
    subst h
    intro t ht
    exact absurd ht (List.not_mem_nil t)
  · rw [hr] at h
    simp only [Option.getD_some] at h
    subst h
    exact parseLoop_id_ne_nil (s.length + 1) s 0 [] out (by simp) hr

/-- Witness for C7: an array with one empty-id record and one good
record parses to just the good record, whose id is nonempty. -/
theorem parse_drops_empty_id_witness :
    parseTestSuiteVector
        (strL "[\x7bid:\x22\x22,url:\x22u\x22\x7d,\x7bid:\x22A\x22,url:\x22u\x22,times:2\x7d]")
      = .ok [⟨strL "A", [], strL "u", 2⟩]
  ∧ ∀ t ∈ [(⟨strL "A", [], strL "u", 2⟩ : Test)], t.id ≠ [] :=
  ⟨rfl,
   parse_drops_empty_id
     (strL "[\x7bid:\x22\x22,url:\x22u\x22\x7d,\x7bid:\x22A\x22,url:\x22u\x22,times:2\x7d]")
     [⟨strL "A", [], strL "u", 2⟩] rfl⟩

end DpiCheck
